import Mathlib

/-!
Verification of the module-set release tooling (multimod / releaser).

This file shallow-embeds the data model and the algorithms of the
repository: the module-versioning index construction, tag-name
derivation, the tag create/delete state machines, and the sync
operation.  Go maps whose iteration order matters for the embedded
loops are modelled as association lists; commit hashes are opaque
naturals; fallible operations return `Except` or pair their result
with an optional error.
-/

namespace BuildTools

/-- A module path: an opaque identifier string, the join key of the system. -/
abbrev ModulePath := String

/-- A semantic-version string, dictated by the manifest. -/
abbrev Version := String

/-- One named module set of a manifest: a target version plus an ordered
list of module paths (struct `ModuleSet` of the common package). -/
structure ModuleSet where
  Version : Version
  Modules : List ModulePath
deriving Repr, DecidableEq

/-- `ModuleSetMap`: mapping from set name to `ModuleSet`.  Modelled as an
association list; the list order stands for the map iteration order. -/
abbrev ModuleSetMap := List (String × ModuleSet)

/-- `ModuleInfo`: owning set name and version, derived per module path. -/
structure ModuleInfo where
  ModuleSetName : String
  Version : Version
deriving Repr, DecidableEq

/-- `ModuleInfoMap`: mapping from module path to its `ModuleInfo`,
modelled as an association list whose keys stay pairwise distinct. -/
abbrev ModuleInfoMap := List (ModulePath × ModuleInfo)

/-- Go map lookup `modInfoMap[modPath]` on the association list. -/
def lookupInfo (m : ModuleInfoMap) (p : ModulePath) : Option ModuleInfo :=
  match m with
  | [] => none
  | (q, info) :: rest => if q = p then some info else lookupInfo rest p

/-- The `DuplicateModuleError`: a module path found in two sets; carries the
path and the two conflicting set names (the already-recorded one and the
one currently being processed). -/
structure DuplicateModuleError where
  modPath : ModulePath
  existingSetName : String
  currentSetName : String
deriving Repr, DecidableEq

/-- Inner loop of `MockModuleVersioning`
(releaser/internal/common/commontest/commontest.go): walk the modules of
one set; a path already present in the index fails with a
`DuplicateModuleError` naming both set names, otherwise the path is
recorded with the set's name and version. -/
def addModulesOfSet (setName : String) (v : Version) :
    List ModulePath → ModuleInfoMap → Except DuplicateModuleError ModuleInfoMap
  | [], m => .ok m
  | p :: ps, m =>
    match lookupInfo m p with
    | some info => .error ⟨p, info.ModuleSetName, setName⟩
    | none => addModulesOfSet setName v ps (m ++ [(p, ⟨setName, v⟩)])

/-- Outer loop of `MockModuleVersioning`: iterate all sets of the manifest. -/
def buildModuleInfoMap :
    ModuleSetMap → ModuleInfoMap → Except DuplicateModuleError ModuleInfoMap
  | [], m => .ok m
  | (setName, s) :: rest, m =>
    match addModulesOfSet setName s.Version s.Modules m with
    | .error e => .error e
    | .ok m' => buildModuleInfoMap rest m'

/-- `MockModuleVersioning`'s index construction: build the `ModuleInfoMap`
from a `ModuleSetMap`, starting from the empty index. -/
def mockModuleVersioning (msm : ModuleSetMap) :
    Except DuplicateModuleError ModuleInfoMap :=
  buildModuleInfoMap msm []

/-- Total count of module paths listed across all sets of the manifest. -/
def totalModuleCount (msm : ModuleSetMap) : Nat :=
  (msm.map (fun e => e.2.Modules.length)).sum

/-- All module paths listed across all sets, in iteration order. -/
def allModulePaths (msm : ModuleSetMap) : List ModulePath :=
  msm.flatMap (fun e => e.2.Modules)

/-- The set named `n` in the manifest lists the path `p`. -/
def setContainsPath (msm : ModuleSetMap) (n : String) (p : ModulePath) : Prop :=
  ∃ s, (n, s) ∈ msm ∧ p ∈ s.Modules

/-- Keys of a `ModuleInfoMap`. -/
def infoKeys (m : ModuleInfoMap) : List ModulePath :=
  m.map Prod.fst

/-- The entries one set contributes to the index, in module order. -/
def setEntries (n : String) (v : Version) (ps : List ModulePath) : ModuleInfoMap :=
  ps.map (fun p => (p, ⟨n, v⟩))

/-- The whole index a valid manifest produces, in iteration order. -/
def manifestEntries (msm : ModuleSetMap) : ModuleInfoMap :=
  msm.flatMap (fun e => setEntries e.1 e.2.Version e.2.Modules)

/-- Index-accumulator invariant: every recorded entry's owning set name
names a manifest set that really lists the entry's module path. -/
def EntriesOk (msm : ModuleSetMap) (m : ModuleInfoMap) : Prop :=
  ∀ e ∈ m, setContainsPath msm e.2.ModuleSetName e.1

/-- The manifest of the repository's own `versions_valid.yaml` test data. -/
def demoManifest : ModuleSetMap :=
  [("mod-set-1", ⟨"v1.2.3-RC1+meta", ["go.opentelemetry.io/test/test1"]⟩),
   ("mod-set-2", ⟨"v0.1.0", ["go.opentelemetry.io/test3"]⟩),
   ("mod-set-3", ⟨"v2.2.2", ["go.opentelemetry.io/testroot/v2"]⟩)]

/-- `ModuleTagName`: the module's filesystem-relative segment under the repo
root, or the sentinel for a module sitting at the repository root itself. -/
inductive ModuleTagName where
  | repoRoot
  | dir (path : String)
deriving Repr, DecidableEq

/-- `RepoRootTag`, the sentinel root-tag value. -/
def RepoRootTag : ModuleTagName := .repoRoot

/-- A filesystem path, as its list of components. -/
abbrev FsPath := List String

/-- `ModulePathMap`: module path to on-disk definition-file location. -/
abbrev ModulePathMap := List (ModulePath × FsPath)

/-- Forward-slash join of path components, the host-independent rendering
the deriver emits. -/
def joinSlash : List String → String
  | [] => ""
  | [c] => c
  | c :: rest => c ++ "/" ++ joinSlash rest

/-- Modelled from the spec: the tag-name deriver of §4.4
(`ModulePathsToTagNames` of the common package is not among the provided
sources).  Rule: take the module definition file's path relative to the
repository root, strip the trailing definition-file component; if nothing
remains the module is the repository root and the sentinel is emitted,
otherwise the remaining directory joined with forward slashes. -/
def moduleFilePathToTagName (repoRoot : FsPath) (fp : FsPath) :
    Option ModuleTagName :=
  if fp.take repoRoot.length = repoRoot then
    let rel := fp.drop repoRoot.length
    let dirComps := rel.dropLast
    if dirComps.isEmpty then some RepoRootTag
    else some (.dir (joinSlash dirComps))
  else none

/-- Go map lookup on the `ModulePathMap`. -/
def lookupModFilePath (m : ModulePathMap) (p : ModulePath) : Option FsPath :=
  match m with
  | [] => none
  | (q, fp) :: rest => if q = p then some fp else lookupModFilePath rest p

/-- Modelled from the spec: `ModulePathsToTagNames` — derive the tag name of
every module of a set, in module order. -/
def modulePathsToTagNames (mods : List ModulePath) (pathMap : ModulePathMap)
    (repoRoot : FsPath) : Option (List ModuleTagName) :=
  match mods with
  | [] => some []
  | p :: rest =>
    match lookupModFilePath pathMap p with
    | none => none
    | some fp =>
      match moduleFilePathToTagName repoRoot fp with
      | none => none
      | some tn =>
        match modulePathsToTagNames rest pathMap repoRoot with
        | none => none
        | some tns => some (tn :: tns)

/-- Combine a tag name with the set version into the full tag name:
`<ModuleTagName>/<version>`, or just `<version>` for the root sentinel. -/
def combineTagNameAndVersion (tn : ModuleTagName) (v : Version) : String :=
  match tn with
  | .repoRoot => v
  | .dir d => d ++ "/" ++ v

/-- `ModuleSetRelease`: a versioning narrowed to one named set plus its
derived tag names. -/
structure ModuleSetRelease where
  ModSetName : String
  ModSet : ModuleSet
  TagNames : List ModuleTagName
deriving Repr, DecidableEq

/-- `ModuleSetRelease.ModuleFullTagNames`: full tag names of the set. -/
def ModuleSetRelease.ModuleFullTagNames (r : ModuleSetRelease) : List String :=
  r.TagNames.map (fun tn => combineTagNameAndVersion tn r.ModSet.Version)

/-- Go map lookup of a named set in the manifest. -/
def lookupSet (msm : ModuleSetMap) (n : String) : Option ModuleSet :=
  match msm with
  | [] => none
  | (q, s) :: rest => if q = n then some s else lookupSet rest n

/-- Modelled from the spec: `NewModuleSetRelease` — narrow the manifest to
one named set and derive its tag names. -/
def newModuleSetRelease (msm : ModuleSetMap) (setName : String)
    (pathMap : ModulePathMap) (repoRoot : FsPath) : Option ModuleSetRelease :=
  match lookupSet msm setName with
  | none => none
  | some s =>
    match modulePathsToTagNames s.Modules pathMap repoRoot with
    | none => none
    | some tns => some ⟨setName, s, tns⟩

/-- A commit identifier (`plumbing.Hash`), opaque. -/
abbrev Hash := Nat

/-- The local tag namespace of one repository: annotated tag name paired
with the tag object's target commit, in creation order. -/
structure Repo where
  tags : List (String × Hash)
deriving Repr, DecidableEq

/-- Association lookup on a tag list. -/
def tagLookupList : List (String × Hash) → String → Option Hash
  | [], _ => none
  | (q, h) :: rest, n => if q = n then some h else tagLookupList rest n

/-- `repo.Tag` followed by `repo.TagObject` and `tagObj.Commit()`: the
target commit of the named tag, `none` when the tag does not exist. -/
def Repo.tagLookup (repo : Repo) (n : String) : Option Hash :=
  tagLookupList repo.tags n

/-- The tag names present in the repository. -/
def Repo.tagNames (repo : Repo) : List String :=
  repo.tags.map Prod.fst

/-- Remove the first entry of the given tag name. -/
def removeTagEntry : List (String × Hash) → String → List (String × Hash)
  | [], _ => []
  | (q, h) :: rest, n => if q = n then rest else (q, h) :: removeTagEntry rest n

/-- An injected failure model for the external go-git calls: for each tag
name, whether the call fails and with what message. -/
abbrev GitFailure := String → Option String

/-- `repo.CreateTag(name, hash, opts)`: fails when the backend reports an
error or the tag already exists; otherwise appends the tag. -/
def Repo.createTag (cErr : GitFailure) (repo : Repo) (n : String) (h : Hash) :
    Except String Repo :=
  match cErr n with
  | some e => .error e
  | none =>
    if n ∈ repo.tagNames then .error "tag already exists"
    else .ok ⟨repo.tags ++ [(n, h)]⟩

/-- `repo.DeleteTag(name)`: fails when the backend reports an error or the
tag does not exist; otherwise removes it. -/
def Repo.deleteTag (dErr : GitFailure) (repo : Repo) (n : String) :
    Except String Repo :=
  match dErr n with
  | some e => .error e
  | none =>
    if n ∈ repo.tagNames then .ok ⟨removeTagEntry repo.tags n⟩
    else .error "tag not found"

/-- `errGitTagsNotOnCommit`: the target commit plus every offending tag. -/
structure ErrGitTagsNotOnCommit where
  commitHash : Hash
  tagNames : List String
deriving Repr, DecidableEq

/-- The collecting loop of `verifyTagsOnCommit`
(releaser/internal/tag): a tag that does not exist is skipped; an existing
tag whose target commit differs from the target is collected. -/
def collectTagsNotOnCommit (repo : Repo) (target : Hash) :
    List String → List String
  | [] => []
  | tn :: rest =>
    match repo.tagLookup tn with
    | some h =>
      if h ≠ target then tn :: collectTagsNotOnCommit repo target rest
      else collectTagsNotOnCommit repo target rest
    | none => collectTagsNotOnCommit repo target rest

/-- Errors of `newTagger`. -/
inductive TaggerError where
  | resolveFailed (cause : String)
  | tagExists (tag : String)
  | tagsNotOnCommit (e : ErrGitTagsNotOnCommit)
deriving Repr, DecidableEq

/-- `verifyTagsOnCommit`: fail with a single error listing all offending
tag names when at least one existing tag is not on the target commit. -/
def verifyTagsOnCommit (modFullTagNames : List String) (repo : Repo)
    (targetCommitHash : Hash) : Except TaggerError Unit :=
  let tagsNotOnCommit := collectTagsNotOnCommit repo targetCommitHash modFullTagNames
  if tagsNotOnCommit.length > 0 then
    .error (.tagsNotOnCommit ⟨targetCommitHash, tagsNotOnCommit⟩)
  else .ok ()

/-- Modelled from the spec: `VerifyGitTagsDoNotAlreadyExist` of the common
package is not among the provided sources.  Every computed full tag name
must not already exist in the repository, otherwise a `TagExistsError`. -/
def verifyGitTagsDoNotAlreadyExist (modFullTagNames : List String)
    (repo : Repo) : Except TaggerError Unit :=
  match modFullTagNames with
  | [] => .ok ()
  | tn :: rest =>
    match repo.tagLookup tn with
    | some _ => .error (.tagExists tn)
    | none => verifyGitTagsDoNotAlreadyExist rest repo

/-- `getFullCommitHash`: resolve the user-supplied (possibly abbreviated)
revision to a full commit hash via `repo.ResolveRevision`, modelled as an
oracle from revision strings to commits. -/
def getFullCommitHash (resolve : String → Option Hash) (hash : String) :
    Except TaggerError Hash :=
  match resolve hash with
  | none => .error (.resolveFailed hash)
  | some h => .ok h

/-- The `tagger` struct: the release's full tag names plus the commit hash
resolved once at construction. -/
structure Tagger where
  modFullTagNames : List String
  CommitHash : Hash
deriving Repr, DecidableEq

/-- `newTagger`: resolve the commit hash, then verify — on the delete path
that every existing tag of the set sits on the target commit, on the create
path that no tag of the set exists yet. -/
def newTagger (modFullTagNames : List String) (repo : Repo)
    (resolve : String → Option Hash) (hash : String)
    (deleteModuleSetTags : Bool) : Except TaggerError Tagger :=
  match getFullCommitHash resolve hash with
  | .error e => .error e
  | .ok fullCommitHash =>
    match
      (if deleteModuleSetTags then
        verifyTagsOnCommit modFullTagNames repo fullCommitHash
      else
        verifyGitTagsDoNotAlreadyExist modFullTagNames repo) with
    | .error e => .error e
    | .ok _ => .ok ⟨modFullTagNames, fullCommitHash⟩

/-- `deleteTags`: delete the given tags one at a time, aborting at the
first failure, which is reported with the failing tag and its cause. -/
def deleteTagsLoop (dErr : GitFailure) :
    Repo → List String → Repo × Option (String × String)
  | repo, [] => (repo, none)
  | repo, t :: rest =>
    match Repo.deleteTag dErr repo t with
    | .error e => (repo, some (t, e))
    | .ok repo' => deleteTagsLoop dErr repo' rest

/-- Errors of `tagAllModules`: a creation failure, optionally compounded
with a rollback failure — the original creation error stays reported. -/
inductive TagRunError where
  | createFailed (tag : String) (cause : String)
  | createAndRollbackFailed (tag : String) (cause : String)
      (rollbackTag : String) (rollbackCause : String)
deriving Repr, DecidableEq

/-- `tagAllModules`' loop: create tags one at a time in declaration order;
on a creation failure, delete every tag created earlier in this run, then
fail, never masking the creation error with a rollback error. -/
def tagAllModulesLoop (cErr dErr : GitFailure) (hash : Hash) :
    Repo → List String → List String → Repo × Option TagRunError
  | repo, [], _ => (repo, none)
  | repo, t :: rest, addedFullTags =>
    match Repo.createTag cErr repo t hash with
    | .error e =>
      match deleteTagsLoop dErr repo addedFullTags with
      | (repo', none) => (repo', some (.createFailed t e))
      | (repo', some (rt, re)) =>
        (repo', some (.createAndRollbackFailed t e rt re))
    | .ok repo' => tagAllModulesLoop cErr dErr hash repo' rest (addedFullTags ++ [t])

/-- `tagAllModules`: tag every module of the set on the stored commit. -/
def tagAllModules (cErr dErr : GitFailure) (t : Tagger) (repo : Repo) :
    Repo × Option TagRunError :=
  tagAllModulesLoop cErr dErr t.CommitHash repo t.modFullTagNames []

/-- Errors of the tag command's `Run`. -/
inductive TagCmdError where
  | taggerError (e : TaggerError)
  | tagError (e : TagRunError)
  | deleteError (tag cause : String)
deriving Repr, DecidableEq

/-- The tag command's `Run`: build the tagger (which verifies), then either
delete the set's tags or create them; a construction error aborts before
any mutation. -/
def tagCmdRun (modFullTagNames : List String) (repo : Repo)
    (resolve : String → Option Hash) (hash : String)
    (deleteModuleSetTags : Bool) (cErr dErr : GitFailure) :
    Repo × Option TagCmdError :=
  match newTagger modFullTagNames repo resolve hash deleteModuleSetTags with
  | .error e => (repo, some (.taggerError e))
  | .ok t =>
    if deleteModuleSetTags then
      match deleteTagsLoop dErr repo t.modFullTagNames with
      | (repo', none) => (repo', none)
      | (repo', some (dt, de)) => (repo', some (.deleteError dt de))
    else
      match tagAllModules cErr dErr t repo with
      | (repo', none) => (repo', none)
      | (repo', some e) => (repo', some (.tagError e))

/-- The tag entries a run creates: every tag on the same commit. -/
def tagEntries (ps : List String) (h : Hash) : List (String × Hash) :=
  ps.map (fun p => (p, h))

/-- The require-directive view of the working tree's go.mod files: for each
module file, the version it requires per referenced module path. -/
abbrev GoModTree := List (ModulePath × List (ModulePath × Version))

/-- Modelled from the spec: `UpdateGoModFiles` of the common package is not
among the provided sources — rewrite every local module's dependency
declarations that reference a module of the foreign set to require the
foreign version. -/
def updateGoModFiles (foreignModules : List ModulePath) (newVersion : Version)
    (tree : GoModTree) : GoModTree :=
  tree.map (fun e =>
    (e.1, e.2.map (fun d =>
      if d.1 ∈ foreignModules then (d.1, newVersion) else d)))

/-- The state the sync command mutates: the working tree, the committed
tree (HEAD), and the branches and commits it creates. -/
structure GitState where
  worktree : GoModTree
  committed : GoModTree
  branches : List String
  commitMessages : List String
deriving Repr, DecidableEq

/-- Modelled from the spec: `VerifyWorkingTreeClean` of the common package
is not among the provided sources — the tree is clean when the working tree
matches the committed state. -/
def workingTreeClean (st : GitState) : Bool :=
  decide (st.worktree = st.committed)

/-- `checkModuleSetUpToDate` (multimod/internal/sync/sync.go): the set is
up to date when the worktree status is clean after the rewrite. -/
def checkModuleSetUpToDate (st : GitState) : Bool :=
  decide (st.worktree = st.committed)

/-- Go's `strings.Join`. -/
def stringsJoin (elems : List String) (sep : String) : String :=
  match elems with
  | [] => ""
  | e :: rest => rest.foldl (fun acc x => acc ++ sep ++ x) e

/-- The branch name of `commitChangesToNewBranch`:
`strings.Join(["sync", setName, version], "_")`. -/
def syncBranchName (setName : String) (version : Version) : String :=
  stringsJoin ["sync", setName, version] "_"

/-- The commit message of `commitChangesToNewBranch`. -/
def syncCommitMessage (setName : String) (version : Version) : String :=
  "Sync repo to use " ++ setName ++ " with version " ++ version

/-- `commitChangesToNewBranch`: create the `sync_<set>_<version>` branch
and commit all working-tree changes with the standard message. -/
def commitChangesToNewBranch (setName : String) (version : Version)
    (st : GitState) : GitState :=
  { worktree := st.worktree
    committed := st.worktree
    branches := syncBranchName setName version :: st.branches
    commitMessages := syncCommitMessage setName version :: st.commitMessages }

/-- The external `go mod tidy` step: a tree transformation plus a success
flag; `Run` only ever logs the flag, never branches on it. -/
abbrev TidyStep := GoModTree → GoModTree × Bool

/-- The body of `Run`'s per-module-set loop (sync.go): rewrite all go.mod
files, skip when the tree shows no change, otherwise run `go mod tidy`
unless skipped (a tidy failure is only logged) and commit to a new branch. -/
def syncOneSet (otherModuleSetName : String) (otherModuleSet : ModuleSet)
    (skipModTidy : Bool) (tidy : TidyStep) (st : GitState) : GitState :=
  let st' := { st with
    worktree := updateGoModFiles otherModuleSet.Modules
      otherModuleSet.Version st.worktree }
  if checkModuleSetUpToDate st' then st'
  else
    let st'' :=
      if skipModTidy then st'
      else { st' with worktree := (tidy st'.worktree).1 }
    commitChangesToNewBranch otherModuleSetName otherModuleSet.Version st''

/-- The sync loop over the requested module sets. -/
def syncRunLoop (skipModTidy : Bool) (tidy : TidyStep) :
    GitState → List (String × ModuleSet) → GitState
  | st, [] => st
  | st, (n, s) :: rest =>
    syncRunLoop skipModTidy tidy (syncOneSet n s skipModTidy tidy st) rest

/-- `CleanTreeError`: uncommitted changes present before the run. -/
inductive SyncError where
  | cleanTreeError
deriving Repr, DecidableEq

/-- `sync.Run`: verify the working tree is clean before touching anything,
then process every requested module set. -/
def syncRun (sets : List (String × ModuleSet)) (skipModTidy : Bool)
    (tidy : TidyStep) (st : GitState) : GitState × Option SyncError :=
  if workingTreeClean st then (syncRunLoop skipModTidy tidy st sets, none)
  else (st, some .cleanTreeError)

theorem infoKeys_cons (q : ModulePath) (info : ModuleInfo) (m : ModuleInfoMap) :
    infoKeys ((q, info) :: m) = q :: infoKeys m := rfl

theorem lookupInfo_eq_none_iff (m : ModuleInfoMap) (p : ModulePath) :
    lookupInfo m p = none ↔ p ∉ infoKeys m := by
  induction m with
  | nil => simp [lookupInfo, infoKeys]
  | cons e rest ih =>
    obtain ⟨q, info⟩ := e
    rw [infoKeys_cons]
    by_cases h : q = p
    · subst h
      simp [lookupInfo]
    · have h' : p ≠ q := fun hpq => h hpq.symm
      simp [lookupInfo, h, ih, h']

theorem lookupInfo_append_of_none (m₁ m₂ : ModuleInfoMap) (p : ModulePath)
    (h : lookupInfo m₁ p = none) :
    lookupInfo (m₁ ++ m₂) p = lookupInfo m₂ p := by
  induction m₁ with
  | nil => simp
  | cons e rest ih =>
    obtain ⟨q, info⟩ := e
    by_cases hq : q = p
    · simp [lookupInfo, hq] at h
    · simp [lookupInfo, hq] at h ⊢
      exact ih h

theorem infoKeys_append (m₁ m₂ : ModuleInfoMap) :
    infoKeys (m₁ ++ m₂) = infoKeys m₁ ++ infoKeys m₂ := by
  simp [infoKeys]

theorem infoKeys_setEntries (n : String) (v : Version) (ps : List ModulePath) :
    infoKeys (setEntries n v ps) = ps := by
  simp [infoKeys, setEntries, Function.comp_def]

theorem infoKeys_singleton (p : ModulePath) (info : ModuleInfo) :
    infoKeys [(p, info)] = [p] := rfl

theorem lookupInfo_setEntries_of_mem (n : String) (v : Version)
    (ps : List ModulePath) (p : ModulePath) (h : p ∈ ps) :
    lookupInfo (setEntries n v ps) p = some ⟨n, v⟩ := by
  induction ps with
  | nil => cases h
  | cons q rest ih =>
    by_cases hq : q = p
    · simp [setEntries, lookupInfo, hq]
    · have : p ∈ rest := by
        cases h with
        | head => exact absurd rfl hq
        | tail _ h => exact h
      simp [setEntries, lookupInfo, hq] at ih ⊢
      exact ih this

theorem addModulesOfSet_ok_iff (n : String) (v : Version)
    (ps : List ModulePath) (m m' : ModuleInfoMap) :
    addModulesOfSet n v ps m = .ok m' ↔
      (ps.Nodup ∧ (∀ p ∈ ps, p ∉ infoKeys m) ∧
        m' = m ++ setEntries n v ps) := by
  induction ps generalizing m with
  | nil =>
    simp only [addModulesOfSet, setEntries, List.map_nil, List.append_nil,
      List.nodup_nil, List.not_mem_nil, false_implies, implies_true, true_and]
    exact ⟨fun h => by cases h; rfl, fun h => by rw [h]⟩
  | cons p rest ih =>
    have hsplit : ∀ q, q ∉ infoKeys (m ++ [(p, (⟨n, v⟩ : ModuleInfo))]) ↔
        (q ∉ infoKeys m ∧ q ≠ p) := by
      intro q
      rw [infoKeys_append, infoKeys_singleton]
      simp [not_or]
    cases hl : lookupInfo m p with
    | some info =>
      have hp : p ∈ infoKeys m := by
        by_contra hmem
        rw [← lookupInfo_eq_none_iff] at hmem
        simp [hmem] at hl
      simp only [addModulesOfSet, hl]
      constructor
      · intro h; cases h
      · rintro ⟨-, hall, -⟩
        exact absurd hp (hall p (List.mem_cons_self p rest))
    | none =>
      have hp : p ∉ infoKeys m := (lookupInfo_eq_none_iff m p).mp hl
      simp only [addModulesOfSet, hl, ih]
      constructor
      · rintro ⟨hnd, hall, hm'⟩
        refine ⟨?_, ?_, ?_⟩
        · refine List.nodup_cons.mpr ⟨fun hc => ?_, hnd⟩
          exact ((hsplit p).mp (hall p hc)).2 rfl
        · intro q hq
          rcases List.mem_cons.mp hq with hq | hq
          · exact hq ▸ hp
          · exact ((hsplit q).mp (hall q hq)).1
        · rw [hm']
          simp [setEntries]
      · rintro ⟨hnd, hall, hm'⟩
        have hnd' := List.nodup_cons.mp hnd
        refine ⟨hnd'.2, ?_, ?_⟩
        · intro q hq
          refine (hsplit q).mpr ⟨hall q (List.mem_cons_of_mem p hq), ?_⟩
          intro hqp
          exact hnd'.1 (hqp ▸ hq)
        · rw [hm']
          simp [setEntries]

theorem buildModuleInfoMap_ok (msm : ModuleSetMap) (m : ModuleInfoMap)
    (h : (infoKeys m ++ allModulePaths msm).Nodup) :
    buildModuleInfoMap msm m = .ok (m ++ manifestEntries msm) := by
  induction msm generalizing m with
  | nil => simp [buildModuleInfoMap, manifestEntries]
  | cons e rest ih =>
    obtain ⟨n, s⟩ := e
    have hpaths : allModulePaths ((n, s) :: rest) =
        s.Modules ++ allModulePaths rest := by
      simp [allModulePaths]
    rw [hpaths, ← List.append_assoc] at h
    have h' := h
    rw [List.nodup_append] at h'
    have hok : addModulesOfSet n s.Version s.Modules m =
        .ok (m ++ setEntries n s.Version s.Modules) := by
      rw [addModulesOfSet_ok_iff]
      have h₁ := h'.1
      rw [List.nodup_append] at h₁
      exact ⟨h₁.2.1, fun p hp hk => h₁.2.2 hk hp, rfl⟩
    simp only [buildModuleInfoMap, hok]
    have hkeys : infoKeys (m ++ setEntries n s.Version s.Modules) =
        infoKeys m ++ s.Modules := by
      rw [infoKeys_append, infoKeys_setEntries]
    rw [ih (m ++ setEntries n s.Version s.Modules) (by rw [hkeys]; exact h)]
    simp [manifestEntries, setEntries]

theorem lookupInfo_append_of_some (m₁ m₂ : ModuleInfoMap) (p : ModulePath)
    (i : ModuleInfo) (h : lookupInfo m₁ p = some i) :
    lookupInfo (m₁ ++ m₂) p = some i := by
  induction m₁ with
  | nil => simp [lookupInfo] at h
  | cons e rest ih =>
    obtain ⟨q, info⟩ := e
    by_cases hq : q = p
    · simp [lookupInfo, hq] at h ⊢
      exact h
    · simp [lookupInfo, hq] at h ⊢
      exact ih h

theorem lookupInfo_mem (m : ModuleInfoMap) (p : ModulePath) (info : ModuleInfo)
    (h : lookupInfo m p = some info) : (p, info) ∈ m := by
  induction m with
  | nil => simp [lookupInfo] at h
  | cons e rest ih =>
    obtain ⟨q, i⟩ := e
    by_cases hq : q = p
    · subst hq
      simp [lookupInfo] at h
      simp [h]
    · simp [lookupInfo, hq] at h
      exact List.mem_cons_of_mem _ (ih h)

theorem manifestEntries_length (msm : ModuleSetMap) :
    (manifestEntries msm).length = totalModuleCount msm := by
  simp [manifestEntries, totalModuleCount, setEntries, Function.comp_def]

theorem lookupInfo_manifestEntries (msm : ModuleSetMap)
    (hnd : (allModulePaths msm).Nodup) (nm : String) (s : ModuleSet)
    (hmem : (nm, s) ∈ msm) (p : ModulePath) (hp : p ∈ s.Modules) :
    lookupInfo (manifestEntries msm) p = some ⟨nm, s.Version⟩ := by
  induction msm with
  | nil => cases hmem
  | cons e rest ih =>
    obtain ⟨n₀, s₀⟩ := e
    have hme : manifestEntries ((n₀, s₀) :: rest) =
        setEntries n₀ s₀.Version s₀.Modules ++ manifestEntries rest := by
      simp [manifestEntries]
    have hnd' : (s₀.Modules ++ allModulePaths rest).Nodup := by
      simpa [allModulePaths] using hnd
    rw [List.nodup_append] at hnd'
    rw [hme]
    rcases List.mem_cons.mp hmem with hhead | htail
    · simp only [Prod.mk.injEq] at hhead
      obtain ⟨rfl, rfl⟩ := hhead
      exact lookupInfo_append_of_some _ _ _ _
        (lookupInfo_setEntries_of_mem _ _ _ _ hp)
    · have hall : p ∈ allModulePaths rest := by
        simp only [allModulePaths, List.mem_flatMap]
        exact ⟨(nm, s), htail, hp⟩
      have hnot : p ∉ s₀.Modules := fun hc => hnd'.2.2 hc hall
      have hnone : lookupInfo (setEntries n₀ s₀.Version s₀.Modules) p = none := by
        rw [lookupInfo_eq_none_iff, infoKeys_setEntries]
        exact hnot
      rw [lookupInfo_append_of_none _ _ _ hnone]
      exact ih hnd'.2.1 htail

theorem buildModuleInfoMap_ok_nodup (msm : ModuleSetMap)
    (m m' : ModuleInfoMap) (hkeys : (infoKeys m).Nodup)
    (h : buildModuleInfoMap msm m = .ok m') :
    (infoKeys m ++ allModulePaths msm).Nodup := by
  induction msm generalizing m with
  | nil => simpa [allModulePaths] using hkeys
  | cons e rest ih =>
    obtain ⟨n, s⟩ := e
    cases hadd : addModulesOfSet n s.Version s.Modules m with
    | error e' => simp [buildModuleInfoMap, hadd] at h
    | ok m₁ =>
      obtain ⟨hnodup, hfresh, hm₁⟩ := (addModulesOfSet_ok_iff _ _ _ _ _).mp hadd
      have hkeys₁ : infoKeys m₁ = infoKeys m ++ s.Modules := by
        rw [hm₁, infoKeys_append, infoKeys_setEntries]
      have hkeysnd : (infoKeys m₁).Nodup := by
        rw [hkeys₁, List.nodup_append]
        exact ⟨hkeys, hnodup, fun a ha hb => hfresh a hb ha⟩
      have hrest : buildModuleInfoMap rest m₁ = .ok m' := by
        simpa [buildModuleInfoMap, hadd] using h
      have := ih m₁ hkeysnd hrest
      rw [hkeys₁, List.append_assoc] at this
      simpa [allModulePaths] using this

theorem addModulesOfSet_error_spec (msm : ModuleSetMap) (n : String)
    (s : ModuleSet) (hset : (n, s) ∈ msm) (ps : List ModulePath)
    (hps : ∀ p ∈ ps, p ∈ s.Modules) (m : ModuleInfoMap)
    (hm : EntriesOk msm m) (e : DuplicateModuleError)
    (herr : addModulesOfSet n s.Version ps m = .error e) :
    setContainsPath msm e.existingSetName e.modPath ∧
      setContainsPath msm e.currentSetName e.modPath := by
  induction ps generalizing m with
  | nil => simp [addModulesOfSet] at herr
  | cons p rest ih =>
    cases hl : lookupInfo m p with
    | some info =>
      simp only [addModulesOfSet, hl, Except.error.injEq] at herr
      subst herr
      refine ⟨hm _ (lookupInfo_mem _ _ _ hl), s, hset, ?_⟩
      exact hps p (List.mem_cons_self p rest)
    | none =>
      simp only [addModulesOfSet, hl] at herr
      refine ih (fun q hq => hps q (List.mem_cons_of_mem p hq))
        (m ++ [(p, ⟨n, s.Version⟩)]) ?_ herr
      intro x hx
      rcases List.mem_append.mp hx with hx | hx
      · exact hm x hx
      · rcases List.mem_singleton.mp hx with rfl
        exact ⟨s, hset, hps p (List.mem_cons_self p rest)⟩

theorem buildModuleInfoMap_error_spec (msm : ModuleSetMap) :
    ∀ rest : ModuleSetMap, (∀ e ∈ rest, e ∈ msm) →
    ∀ m : ModuleInfoMap, EntriesOk msm m →
    ∀ e : DuplicateModuleError, buildModuleInfoMap rest m = .error e →
    setContainsPath msm e.existingSetName e.modPath ∧
      setContainsPath msm e.currentSetName e.modPath := by
  intro rest
  induction rest with
  | nil =>
    intro _ m _ e herr
    simp [buildModuleInfoMap] at herr
  | cons hd tl ih =>
    intro hsub m hm e herr
    obtain ⟨n, s⟩ := hd
    cases hadd : addModulesOfSet n s.Version s.Modules m with
    | error e' =>
      simp only [buildModuleInfoMap, hadd, Except.error.injEq] at herr
      subst herr
      exact addModulesOfSet_error_spec msm n s
        (hsub _ (List.mem_cons_self _ _)) s.Modules (fun _ h => h) m hm _ hadd
    | ok m₁ =>
      simp only [buildModuleInfoMap, hadd] at herr
      obtain ⟨-, -, hm₁⟩ := (addModulesOfSet_ok_iff _ _ _ _ _).mp hadd
      refine ih (fun x hx => hsub x (List.mem_cons_of_mem _ hx)) m₁ ?_ e herr
      intro x hx
      rw [hm₁] at hx
      rcases List.mem_append.mp hx with hx | hx
      · exact hm x hx
      · simp only [setEntries, List.mem_map] at hx
        obtain ⟨p, hp, rfl⟩ := hx
        exact ⟨s, hsub _ (List.mem_cons_self _ _), hp⟩

/-- C1: constructing the `ModuleInfoMap` from a `ModuleSetMap` yields exactly
one entry per module path listed across all module sets (its size equals the
total count of module paths over all sets), each entry recording the owning
set's name and version; if any module path occurs in more than one place,
construction fails with a `DuplicateModuleError` naming both conflicting set
names, and no index is returned. -/
theorem c1_module_info_map_construction (msm : ModuleSetMap) :
    ((allModulePaths msm).Nodup →
      ∃ m, mockModuleVersioning msm = .ok m ∧
        m.length = totalModuleCount msm ∧
        ∀ nm s, (nm, s) ∈ msm → ∀ p ∈ s.Modules,
          lookupInfo m p = some ⟨nm, s.Version⟩) ∧
    (¬ (allModulePaths msm).Nodup →
      ∃ e, mockModuleVersioning msm = .error e ∧
        setContainsPath msm e.existingSetName e.modPath ∧
        setContainsPath msm e.currentSetName e.modPath) := by
  constructor
  · intro hnd
    refine ⟨manifestEntries msm, ?_, manifestEntries_length msm, ?_⟩
    · have := buildModuleInfoMap_ok msm [] (by simpa [infoKeys] using hnd)
      simpa [mockModuleVersioning] using this
    · intro nm s hmem p hp
      exact lookupInfo_manifestEntries msm hnd nm s hmem p hp
  · intro hnd
    cases hres : mockModuleVersioning msm with
    | ok m =>
      refine absurd ?_ hnd
      have := buildModuleInfoMap_ok_nodup msm [] m (by simp [infoKeys]) hres
      simpa [infoKeys] using this
    | error e =>
      exact ⟨e, rfl, buildModuleInfoMap_error_spec msm msm (fun _ h => h) []
        (fun x hx => by cases hx) e hres⟩

/-- Witness for C1 on the manifest of the repository's own test data. -/
theorem c1_module_info_map_construction_witness :
    (allModulePaths demoManifest).Nodup ∧
    (∃ m, mockModuleVersioning demoManifest = .ok m ∧
      m.length = totalModuleCount demoManifest ∧
      ∀ nm s, (nm, s) ∈ demoManifest →
        ∀ p ∈ s.Modules, lookupInfo m p = some ⟨nm, s.Version⟩) :=
  ⟨by decide, (c1_module_info_map_construction demoManifest).1 (by decide)⟩

theorem moduleFilePathToTagName_root (root : FsPath) :
    moduleFilePathToTagName root (root ++ ["go.mod"]) = some RepoRootTag := by
  simp [moduleFilePathToTagName, List.take_left, List.drop_left]

theorem moduleFilePathToTagName_dir (root : FsPath) (dirs : List String)
    (h : dirs ≠ []) :
    moduleFilePathToTagName root (root ++ (dirs ++ ["go.mod"])) =
      some (.dir (joinSlash dirs)) := by
  have htake : (root ++ (dirs ++ ["go.mod"])).take root.length = root :=
    List.take_left root _
  have hdrop : (root ++ (dirs ++ ["go.mod"])).drop root.length =
      dirs ++ ["go.mod"] := List.drop_left root _
  have hempty : dirs.isEmpty = false := by
    cases dirs with
    | nil => exact absurd rfl h
    | cons a l => rfl
  simp [moduleFilePathToTagName, htake, hdrop, List.dropLast_concat, hempty]

/-- C2: the derived `ModuleTagName` is the directory of the module's
definition file relative to the repository root with forward-slash
separators, or the root sentinel when the file sits at the repository root;
the full tag name is `<ModuleTagName>/<version>` (just `<version>` for the
root sentinel); for the set `mod-set-1 : v1.2.3-RC1+meta →
[go.opentelemetry.io/test/test1]` located at `<root>/test/test1/go.mod`,
`ModuleSetRelease.ModuleFullTagNames` returns exactly
`["test/test1/v1.2.3-RC1+meta"]`. -/
theorem c2_module_full_tag_names (root : FsPath) (dirs : List String)
    (h : dirs ≠ []) :
    moduleFilePathToTagName root (root ++ ["go.mod"]) = some RepoRootTag ∧
    moduleFilePathToTagName root (root ++ (dirs ++ ["go.mod"])) =
      some (.dir (joinSlash dirs)) ∧
    (∀ v : Version, combineTagNameAndVersion RepoRootTag v = v) ∧
    (∀ d v, combineTagNameAndVersion (.dir d) v = d ++ "/" ++ v) ∧
    (∃ r, newModuleSetRelease
        [("mod-set-1", ⟨"v1.2.3-RC1+meta", ["go.opentelemetry.io/test/test1"]⟩)]
        "mod-set-1"
        [("go.opentelemetry.io/test/test1", root ++ ["test", "test1", "go.mod"])]
        root = some r ∧
      r.ModuleFullTagNames = ["test/test1/v1.2.3-RC1+meta"]) := by
  refine ⟨moduleFilePathToTagName_root root, moduleFilePathToTagName_dir root dirs h,
    fun _ => rfl, fun _ _ => rfl, ?_⟩
  have hderive : moduleFilePathToTagName root (root ++ ["test", "test1", "go.mod"]) =
      some (.dir "test/test1") := by
    have := moduleFilePathToTagName_dir root ["test", "test1"] (by simp)
    simpa [joinSlash] using this
  refine ⟨⟨"mod-set-1", ⟨"v1.2.3-RC1+meta", ["go.opentelemetry.io/test/test1"]⟩,
    [.dir "test/test1"]⟩, ?_, rfl⟩
  simp [newModuleSetRelease, lookupSet, modulePathsToTagNames,
    lookupModFilePath, hderive]

/-- Witness for C2 at a concrete repository root. -/
theorem c2_module_full_tag_names_witness :
    (["test", "test1"] : List String) ≠ [] ∧
    (moduleFilePathToTagName ["home", "repo"] (["home", "repo"] ++ ["go.mod"]) =
        some RepoRootTag ∧
      moduleFilePathToTagName ["home", "repo"]
          (["home", "repo"] ++ (["test", "test1"] ++ ["go.mod"])) =
        some (.dir (joinSlash ["test", "test1"])) ∧
      (∀ v : Version, combineTagNameAndVersion RepoRootTag v = v) ∧
      (∀ d v, combineTagNameAndVersion (.dir d) v = d ++ "/" ++ v) ∧
      (∃ r, newModuleSetRelease
          [("mod-set-1", ⟨"v1.2.3-RC1+meta", ["go.opentelemetry.io/test/test1"]⟩)]
          "mod-set-1"
          [("go.opentelemetry.io/test/test1",
            ["home", "repo"] ++ ["test", "test1", "go.mod"])]
          ["home", "repo"] = some r ∧
        r.ModuleFullTagNames = ["test/test1/v1.2.3-RC1+meta"])) :=
  ⟨by decide, c2_module_full_tag_names ["home", "repo"] ["test", "test1"] (by decide)⟩

theorem mem_collectTagsNotOnCommit (repo : Repo) (target : Hash)
    (tags : List String) (tn : String) :
    tn ∈ collectTagsNotOnCommit repo target tags ↔
      (tn ∈ tags ∧ ∃ h, repo.tagLookup tn = some h ∧ h ≠ target) := by
  induction tags with
  | nil => simp [collectTagsNotOnCommit]
  | cons t rest ih =>
    cases hl : repo.tagLookup t with
    | some h =>
      by_cases hne : h = target
      · subst hne
        simp only [collectTagsNotOnCommit, hl, ne_eq, not_true_eq_false,
          if_false, ih, List.mem_cons]
        constructor
        · rintro ⟨htn, hx⟩
          exact ⟨Or.inr htn, hx⟩
        · rintro ⟨rfl | htn, hx⟩
          · obtain ⟨h', hl', hne'⟩ := hx
            rw [hl] at hl'
            cases hl'
            exact absurd rfl hne'
          · exact ⟨htn, hx⟩
      · simp only [collectTagsNotOnCommit, hl, ne_eq, hne, not_false_eq_true,
          if_true, List.mem_cons, ih]
        constructor
        · rintro (rfl | ⟨htn, hx⟩)
          · exact ⟨Or.inl rfl, h, hl, hne⟩
          · exact ⟨Or.inr htn, hx⟩
        · rintro ⟨rfl | htn, hx⟩
          · exact Or.inl rfl
          · exact Or.inr ⟨htn, hx⟩
    | none =>
      simp only [collectTagsNotOnCommit, hl, ih, List.mem_cons]
      constructor
      · rintro ⟨htn, hx⟩
        exact ⟨Or.inr htn, hx⟩
      · rintro ⟨rfl | htn, hx⟩
        · obtain ⟨h', hl', -⟩ := hx
          rw [hl] at hl'
          cases hl'
        · exact ⟨htn, hx⟩

/-- C3: deletion-path verification examines every full tag name: missing
tags are skipped, every existing tag whose target commit differs from the
commit resolved from the revision is collected, and one
`TagsNotOnCommitError` listing all offending tags aborts the run before any
tag is deleted. -/
theorem c3_delete_path_verification (modFullTagNames : List String)
    (repo : Repo) (resolve : String → Option Hash) (rev : String)
    (target : Hash) (cErr dErr : GitFailure)
    (hres : resolve rev = some target)
    (hbad : collectTagsNotOnCommit repo target modFullTagNames ≠ []) :
    tagCmdRun modFullTagNames repo resolve rev true cErr dErr =
      (repo, some (.taggerError (.tagsNotOnCommit
        ⟨target, collectTagsNotOnCommit repo target modFullTagNames⟩))) ∧
    (∀ tn, tn ∈ collectTagsNotOnCommit repo target modFullTagNames ↔
      (tn ∈ modFullTagNames ∧
        ∃ h, repo.tagLookup tn = some h ∧ h ≠ target)) := by
  constructor
  · have hlen : 0 < (collectTagsNotOnCommit repo target modFullTagNames).length :=
      List.length_pos.mpr hbad
    simp [tagCmdRun, newTagger, getFullCommitHash, hres, verifyTagsOnCommit,
      hlen]
  · intro tn
    exact mem_collectTagsNotOnCommit repo target modFullTagNames tn

/-- Witness for C3: tag `test/v0.1.0` exists on commit 1 while the target
commit is 2, so the run refuses to delete and lists the offending tag. -/
theorem c3_delete_path_verification_witness :
    ((fun r => if r = "abc123" then some 2 else none) "abc123" = some 2) ∧
    (collectTagsNotOnCommit ⟨[("test/v0.1.0", 1)]⟩ 2
        ["test/v0.1.0", "test/test1/v0.1.0"] ≠ []) ∧
    (tagCmdRun ["test/v0.1.0", "test/test1/v0.1.0"] ⟨[("test/v0.1.0", 1)]⟩
        (fun r => if r = "abc123" then some 2 else none) "abc123" true
        (fun _ => none) (fun _ => none) =
      (⟨[("test/v0.1.0", 1)]⟩, some (.taggerError (.tagsNotOnCommit
        ⟨2, collectTagsNotOnCommit ⟨[("test/v0.1.0", 1)]⟩ 2
          ["test/v0.1.0", "test/test1/v0.1.0"]⟩))) ∧
    (∀ tn, tn ∈ collectTagsNotOnCommit ⟨[("test/v0.1.0", 1)]⟩ 2
        ["test/v0.1.0", "test/test1/v0.1.0"] ↔
      (tn ∈ ["test/v0.1.0", "test/test1/v0.1.0"] ∧
        ∃ h, Repo.tagLookup ⟨[("test/v0.1.0", 1)]⟩ tn = some h ∧ h ≠ 2))) :=
  ⟨by decide, by decide,
    c3_delete_path_verification ["test/v0.1.0", "test/test1/v0.1.0"]
      ⟨[("test/v0.1.0", 1)]⟩ (fun r => if r = "abc123" then some 2 else none)
      "abc123" 2 (fun _ => none) (fun _ => none) (by decide) (by decide)⟩

theorem tagNames_mk (l : List (String × Hash)) :
    Repo.tagNames ⟨l⟩ = l.map Prod.fst := rfl

theorem tagNames_append (l₁ l₂ : List (String × Hash)) :
    Repo.tagNames ⟨l₁ ++ l₂⟩ = Repo.tagNames ⟨l₁⟩ ++ Repo.tagNames ⟨l₂⟩ := by
  simp [Repo.tagNames]

theorem tagNames_tagEntries (ps : List String) (h : Hash) :
    Repo.tagNames ⟨tagEntries ps h⟩ = ps := by
  simp [Repo.tagNames, tagEntries, Function.comp_def]

theorem removeTagEntry_append_not_mem (l₁ l₂ : List (String × Hash))
    (p : String) (h : Hash) (hp : p ∉ l₁.map Prod.fst) :
    removeTagEntry (l₁ ++ (p, h) :: l₂) p = l₁ ++ l₂ := by
  induction l₁ with
  | nil => simp [removeTagEntry]
  | cons e rest ih =>
    obtain ⟨q, hq⟩ := e
    simp only [List.map_cons, List.mem_cons, not_or] at hp
    have hqp : ¬ q = p := fun hc => hp.1 hc.symm
    simp only [List.cons_append, removeTagEntry, hqp, if_false, List.append_eq]
    rw [ih hp.2]

theorem deleteTagsLoop_rollback (dErr : GitFailure) (hash : Hash)
    (ps : List String) : ∀ repo₀ : Repo,
    (∀ p ∈ ps, dErr p = none) → (∀ p ∈ ps, p ∉ repo₀.tagNames) →
    deleteTagsLoop dErr ⟨repo₀.tags ++ tagEntries ps hash⟩ ps = (repo₀, none) := by
  induction ps with
  | nil => intro repo₀ _ _; simp [deleteTagsLoop, tagEntries]
  | cons p rest ih =>
    intro repo₀ hd hfresh
    have hdp : dErr p = none := hd p (List.mem_cons_self _ _)
    have hpfresh : p ∉ repo₀.tagNames := hfresh p (List.mem_cons_self _ _)
    have hmem : p ∈ Repo.tagNames ⟨repo₀.tags ++ tagEntries (p :: rest) hash⟩ := by
      rw [tagNames_append, tagNames_tagEntries]
      exact List.mem_append_right _ (List.mem_cons_self _ _)
    have hrem : removeTagEntry (repo₀.tags ++ tagEntries (p :: rest) hash) p =
        repo₀.tags ++ tagEntries rest hash := by
      have : tagEntries (p :: rest) hash = (p, hash) :: tagEntries rest hash := rfl
      rw [this]
      exact removeTagEntry_append_not_mem _ _ _ _ hpfresh
    simp only [deleteTagsLoop, Repo.deleteTag, hdp, hmem, if_true, hrem]
    exact ih repo₀ (fun q hq => hd q (List.mem_cons_of_mem _ hq))
      (fun q hq => hfresh q (List.mem_cons_of_mem _ hq))

theorem tagAllModulesLoop_progress (cErr dErr : GitFailure) (hash : Hash)
    (pre : List String) : ∀ (l addedFullTags : List String) (repo : Repo),
    pre.Nodup → (∀ p ∈ pre, cErr p = none) →
    (∀ p ∈ pre, p ∉ repo.tagNames) →
    tagAllModulesLoop cErr dErr hash repo (pre ++ l) addedFullTags =
      tagAllModulesLoop cErr dErr hash ⟨repo.tags ++ tagEntries pre hash⟩ l
        (addedFullTags ++ pre) := by
  induction pre with
  | nil => intro l added repo _ _ _; simp [tagEntries]
  | cons p rest ih =>
    intro l added repo hnd hc hfresh
    have hcp : cErr p = none := hc p (List.mem_cons_self _ _)
    have hpfresh : p ∉ repo.tagNames := hfresh p (List.mem_cons_self _ _)
    have hnd' := List.nodup_cons.mp hnd
    simp only [List.cons_append, tagAllModulesLoop, Repo.createTag, hcp,
      hpfresh, if_false, List.append_eq]
    have hstep := ih l (added ++ [p]) ⟨repo.tags ++ [(p, hash)]⟩ hnd'.2
      (fun q hq => hc q (List.mem_cons_of_mem _ hq))
      (fun q hq => by
        rw [tagNames_append]
        intro hmem
        rcases List.mem_append.mp hmem with hmem | hmem
        · exact hfresh q (List.mem_cons_of_mem _ hq) hmem
        · simp [Repo.tagNames] at hmem
          exact hnd'.1 (hmem ▸ hq))
    rw [hstep]
    have h₁ : (repo.tags ++ [(p, hash)]) ++ tagEntries rest hash =
        repo.tags ++ tagEntries (p :: rest) hash := by
      simp [tagEntries]
    have h₂ : (added ++ [p]) ++ rest = added ++ (p :: rest) := by simp
    rw [h₁, h₂]

/-- C4: tags are created one at a time in declaration order; when one
creation fails, every tag created earlier in the run is deleted before the
error naming the failing tag is returned, so none of the run's tags remain;
a failure during this rollback is reported together with — not instead of —
the original creation error. -/
theorem c4_tag_creation_rollback (cErr dErr : GitFailure) (hash : Hash)
    (repo₀ : Repo) (pre : List String) (t : String) (rest : List String)
    (e : String) (hnd : pre.Nodup) (hok : ∀ p ∈ pre, cErr p = none)
    (hfresh : ∀ p ∈ pre, p ∉ repo₀.tagNames) (hfail : cErr t = some e) :
    ((∀ p ∈ pre, dErr p = none) →
      tagAllModulesLoop cErr dErr hash repo₀ (pre ++ t :: rest) [] =
        (repo₀, some (.createFailed t e)) ∧
      ∀ p ∈ pre,
        p ∉ (tagAllModulesLoop cErr dErr hash repo₀ (pre ++ t :: rest) []).1.tagNames) ∧
    (∀ q pre' de, pre = q :: pre' → dErr q = some de →
      (tagAllModulesLoop cErr dErr hash repo₀ (pre ++ t :: rest) []).2 =
        some (.createAndRollbackFailed t e q de)) := by
  have hprog := tagAllModulesLoop_progress cErr dErr hash pre (t :: rest) []
    repo₀ hnd hok hfresh
  constructor
  · intro hdel
    have hroll := deleteTagsLoop_rollback dErr hash pre repo₀ hdel hfresh
    have hres : tagAllModulesLoop cErr dErr hash repo₀ (pre ++ t :: rest) [] =
        (repo₀, some (.createFailed t e)) := by
      rw [hprog]
      simp only [tagAllModulesLoop, Repo.createTag, hfail, List.nil_append,
        hroll]
    refine ⟨hres, ?_⟩
    intro p hp
    rw [hres]
    exact hfresh p hp
  · rintro q pre' de rfl hq
    rw [hprog]
    have hdq : Repo.deleteTag dErr
        ⟨repo₀.tags ++ tagEntries (q :: pre') hash⟩ q = .error de := by
      simp [Repo.deleteTag, hq]
    simp only [tagAllModulesLoop, Repo.createTag, hfail, List.nil_append,
      deleteTagsLoop, hdq]

/-- Witness for C4: three modules to tag, the third creation fails; the two
created tags are rolled back and the repository shows none of the three. -/
theorem c4_tag_creation_rollback_witness :
    (["t1/v1.0.0", "t2/v1.0.0"] : List String).Nodup ∧
    (∀ p ∈ (["t1/v1.0.0", "t2/v1.0.0"] : List String),
      (fun n => if n = "t3/v1.0.0" then some "boom" else none) p = none) ∧
    (∀ p ∈ (["t1/v1.0.0", "t2/v1.0.0"] : List String),
      p ∉ Repo.tagNames ⟨[("other/v0.1.0", 7)]⟩) ∧
    (∀ p ∈ (["t1/v1.0.0", "t2/v1.0.0"] : List String),
      (fun _ => (none : Option String)) p = none) ∧
    (tagAllModulesLoop (fun n => if n = "t3/v1.0.0" then some "boom" else none)
        (fun _ => none) 42 ⟨[("other/v0.1.0", 7)]⟩
        (["t1/v1.0.0", "t2/v1.0.0"] ++ "t3/v1.0.0" :: []) [] =
      (⟨[("other/v0.1.0", 7)]⟩, some (.createFailed "t3/v1.0.0" "boom")) ∧
      ∀ p ∈ (["t1/v1.0.0", "t2/v1.0.0"] : List String),
        p ∉ (tagAllModulesLoop
          (fun n => if n = "t3/v1.0.0" then some "boom" else none)
          (fun _ => none) 42 ⟨[("other/v0.1.0", 7)]⟩
          (["t1/v1.0.0", "t2/v1.0.0"] ++ "t3/v1.0.0" :: []) []).1.tagNames) :=
  ⟨by decide, by decide, by decide, by decide,
    (c4_tag_creation_rollback
      (fun n => if n = "t3/v1.0.0" then some "boom" else none)
      (fun _ => none) 42 ⟨[("other/v0.1.0", 7)]⟩ ["t1/v1.0.0", "t2/v1.0.0"]
      "t3/v1.0.0" [] "boom" (by decide) (by decide) (by decide)
      (by decide)).1 (by decide)⟩

theorem tagLookupList_eq_none_iff (l : List (String × Hash)) (p : String) :
    tagLookupList l p = none ↔ p ∉ l.map Prod.fst := by
  induction l with
  | nil => simp [tagLookupList]
  | cons e rest ih =>
    obtain ⟨q, h⟩ := e
    by_cases hq : q = p
    · subst hq
      simp [tagLookupList]
    · have h' : p ≠ q := fun hc => hq hc.symm
      simp [tagLookupList, hq, ih, h']

theorem tagLookupList_append_of_none (l₁ l₂ : List (String × Hash))
    (p : String) (h : tagLookupList l₁ p = none) :
    tagLookupList (l₁ ++ l₂) p = tagLookupList l₂ p := by
  induction l₁ with
  | nil => simp
  | cons e rest ih =>
    obtain ⟨q, hq⟩ := e
    by_cases hqp : q = p
    · simp [tagLookupList, hqp] at h
    · simp [tagLookupList, hqp] at h ⊢
      exact ih h

theorem tagLookupList_tagEntries_of_mem (ps : List String) (h : Hash)
    (tg : String) (htg : tg ∈ ps) :
    tagLookupList (tagEntries ps h) tg = some h := by
  induction ps with
  | nil => cases htg
  | cons p rest ih =>
    by_cases hp : p = tg
    · simp [tagEntries, tagLookupList, hp]
    · have : tg ∈ rest := by
        cases htg with
        | head => exact absurd rfl hp
        | tail _ hkt => exact hkt
      simp [tagEntries, tagLookupList, hp] at ih ⊢
      exact ih this

theorem verifyGitTagsDoNotAlreadyExist_ok (fullTags : List String)
    (repo : Repo) (h : ∀ tg ∈ fullTags, repo.tagLookup tg = none) :
    verifyGitTagsDoNotAlreadyExist fullTags repo = .ok () := by
  induction fullTags with
  | nil => rfl
  | cons t rest ih =>
    have ht : repo.tagLookup t = none := h t (List.mem_cons_self _ _)
    simp only [verifyGitTagsDoNotAlreadyExist, ht]
    exact ih (fun q hq => h q (List.mem_cons_of_mem _ hq))

theorem verifyGitTagsDoNotAlreadyExist_error (fullTags : List String)
    (repo : Repo) (hex : ∃ tg ∈ fullTags, repo.tagLookup tg ≠ none) :
    ∃ tn ∈ fullTags, repo.tagLookup tn ≠ none ∧
      verifyGitTagsDoNotAlreadyExist fullTags repo = .error (.tagExists tn) := by
  induction fullTags with
  | nil => obtain ⟨tg, htg, -⟩ := hex; cases htg
  | cons t rest ih =>
    cases hl : repo.tagLookup t with
    | some h =>
      refine ⟨t, List.mem_cons_self _ _, by simp [hl], ?_⟩
      simp [verifyGitTagsDoNotAlreadyExist, hl]
    | none =>
      have hex' : ∃ tg ∈ rest, repo.tagLookup tg ≠ none := by
        obtain ⟨tg, htg, hne⟩ := hex
        rcases List.mem_cons.mp htg with rfl | htg
        · exact absurd hl hne
        · exact ⟨tg, htg, hne⟩
      obtain ⟨tn, htn, hne, hverr⟩ := ih hex'
      refine ⟨tn, List.mem_cons_of_mem _ htn, hne, ?_⟩
      simp [verifyGitTagsDoNotAlreadyExist, hl, hverr]

/-- C5: on the create path, `newTagger` verifies before any tag creation
that no computed full tag name exists yet; if one does, the run fails with
a `TagExistsError` and the repository is unchanged. -/
theorem c5_create_path_verification (modFullTagNames : List String)
    (repo : Repo) (resolve : String → Option Hash) (rev : String)
    (target : Hash) (cErr dErr : GitFailure)
    (hres : resolve rev = some target)
    (hex : ∃ tg ∈ modFullTagNames, repo.tagLookup tg ≠ none) :
    ∃ tn ∈ modFullTagNames, repo.tagLookup tn ≠ none ∧
      tagCmdRun modFullTagNames repo resolve rev false cErr dErr =
        (repo, some (.taggerError (.tagExists tn))) := by
  obtain ⟨tn, htn, hne, hverr⟩ :=
    verifyGitTagsDoNotAlreadyExist_error modFullTagNames repo hex
  refine ⟨tn, htn, hne, ?_⟩
  simp [tagCmdRun, newTagger, getFullCommitHash, hres, hverr]

/-- Witness for C5: tag `test/test1/v1.2.3` already exists, so the run
aborts during construction with a `TagExistsError` and mutates nothing. -/
theorem c5_create_path_verification_witness :
    ((fun r => if r = "HEAD" then some 9 else none) "HEAD" = some 9) ∧
    (∃ tg ∈ (["test/test1/v1.2.3"] : List String),
      Repo.tagLookup ⟨[("test/test1/v1.2.3", 5)]⟩ tg ≠ none) ∧
    (∃ tn ∈ (["test/test1/v1.2.3"] : List String),
      Repo.tagLookup ⟨[("test/test1/v1.2.3", 5)]⟩ tn ≠ none ∧
        tagCmdRun ["test/test1/v1.2.3"] ⟨[("test/test1/v1.2.3", 5)]⟩
          (fun r => if r = "HEAD" then some 9 else none) "HEAD" false
          (fun _ => none) (fun _ => none) =
        (⟨[("test/test1/v1.2.3", 5)]⟩,
          some (.taggerError (.tagExists tn)))) :=
  ⟨by decide, ⟨"test/test1/v1.2.3", by decide, by decide⟩,
    c5_create_path_verification ["test/test1/v1.2.3"]
      ⟨[("test/test1/v1.2.3", 5)]⟩
      (fun r => if r = "HEAD" then some 9 else none) "HEAD" 9
      (fun _ => none) (fun _ => none) (by decide)
      ⟨"test/test1/v1.2.3", by decide, by decide⟩⟩

/-- C9: the commit hash is resolved once from the revision at tagger
construction and every tag of a successful run is created on exactly that
commit: after the run, each full tag name of the set points at the resolved
hash. -/
theorem c9_all_tags_on_one_commit (modFullTagNames : List String)
    (repo : Repo) (resolve : String → Option Hash) (rev : String)
    (target : Hash) (cErr dErr : GitFailure)
    (hres : resolve rev = some target) (hnd : modFullTagNames.Nodup)
    (hfresh : ∀ tg ∈ modFullTagNames, repo.tagLookup tg = none)
    (hc : ∀ tg ∈ modFullTagNames, cErr tg = none) :
    tagCmdRun modFullTagNames repo resolve rev false cErr dErr =
      (⟨repo.tags ++ tagEntries modFullTagNames target⟩, none) ∧
    ∀ tg ∈ modFullTagNames,
      (tagCmdRun modFullTagNames repo resolve rev false cErr dErr).1.tagLookup tg =
        some target := by
  have hfresh' : ∀ tg ∈ modFullTagNames, tg ∉ repo.tagNames := by
    intro tg htg
    have := hfresh tg htg
    rw [Repo.tagLookup, tagLookupList_eq_none_iff] at this
    exact this
  have hverok := verifyGitTagsDoNotAlreadyExist_ok modFullTagNames repo hfresh
  have hloop : tagAllModulesLoop cErr dErr target repo modFullTagNames [] =
      (⟨repo.tags ++ tagEntries modFullTagNames target⟩, none) := by
    have hprog := tagAllModulesLoop_progress cErr dErr target modFullTagNames
      [] [] repo hnd hc hfresh'
    rw [List.append_nil] at hprog
    rw [hprog]
    rfl
  have hrun : tagCmdRun modFullTagNames repo resolve rev false cErr dErr =
      (⟨repo.tags ++ tagEntries modFullTagNames target⟩, none) := by
    simp [tagCmdRun, newTagger, getFullCommitHash, hres, hverok,
      tagAllModules, hloop]
  refine ⟨hrun, ?_⟩
  intro tg htg
  rw [hrun]
  show tagLookupList (repo.tags ++ tagEntries modFullTagNames target) tg = some target
  rw [tagLookupList_append_of_none _ _ _ (hfresh tg htg)]
  exact tagLookupList_tagEntries_of_mem _ _ _ htg

/-- Witness for C9: two fresh tags created in one run both point at the
commit resolved once from the revision. -/
theorem c9_all_tags_on_one_commit_witness :
    ((fun r => if r = "deadbeef" then some 11 else none) "deadbeef" = some 11) ∧
    ((["test/test1/v1.2.3", "v1.2.3"] : List String).Nodup) ∧
    (∀ tg ∈ (["test/test1/v1.2.3", "v1.2.3"] : List String),
      Repo.tagLookup ⟨[("old/v0.1.0", 3)]⟩ tg = none) ∧
    (∀ tg ∈ (["test/test1/v1.2.3", "v1.2.3"] : List String),
      (fun _ => (none : Option String)) tg = none) ∧
    (tagCmdRun ["test/test1/v1.2.3", "v1.2.3"] ⟨[("old/v0.1.0", 3)]⟩
        (fun r => if r = "deadbeef" then some 11 else none) "deadbeef" false
        (fun _ => none) (fun _ => none) =
      (⟨[("old/v0.1.0", 3)] ++ tagEntries ["test/test1/v1.2.3", "v1.2.3"] 11⟩,
        none) ∧
      ∀ tg ∈ (["test/test1/v1.2.3", "v1.2.3"] : List String),
        (tagCmdRun ["test/test1/v1.2.3", "v1.2.3"] ⟨[("old/v0.1.0", 3)]⟩
          (fun r => if r = "deadbeef" then some 11 else none) "deadbeef" false
          (fun _ => none) (fun _ => none)).1.tagLookup tg = some 11) :=
  ⟨by decide, by decide, by decide, by decide,
    c9_all_tags_on_one_commit ["test/test1/v1.2.3", "v1.2.3"]
      ⟨[("old/v0.1.0", 3)]⟩
      (fun r => if r = "deadbeef" then some 11 else none) "deadbeef" 11
      (fun _ => none) (fun _ => none) (by decide) (by decide) (by decide)
      (by decide)⟩

theorem updateReqs_idem (mods : List ModulePath) (v : Version)
    (l : List (ModulePath × Version)) :
    (l.map (fun d => if d.1 ∈ mods then (d.1, v) else d)).map
        (fun d => if d.1 ∈ mods then (d.1, v) else d) =
      l.map (fun d => if d.1 ∈ mods then (d.1, v) else d) := by
  induction l with
  | nil => rfl
  | cons d rest ih =>
    by_cases h : d.1 ∈ mods
    · simp [h, ih]
    · simp [h, ih]

theorem updateGoModFiles_idem (mods : List ModulePath) (v : Version)
    (t : GoModTree) :
    updateGoModFiles mods v (updateGoModFiles mods v t) =
      updateGoModFiles mods v t := by
  induction t with
  | nil => rfl
  | cons e rest ih =>
    simp only [updateGoModFiles, List.map_cons, List.cons.injEq] at ih ⊢
    exact ⟨congrArg (Prod.mk e.1) (updateReqs_idem mods v e.2), ih⟩

theorem syncRun_clean (sets : List (String × ModuleSet)) (skip : Bool)
    (tidy : TidyStep) (st : GitState) (hclean : st.worktree = st.committed) :
    syncRun sets skip tidy st = (syncRunLoop skip tidy st sets, none) := by
  have hwc : workingTreeClean st = true := by
    show decide _ = true
    rw [decide_eq_true_eq]
    exact hclean
  simp [syncRun, hwc]

theorem syncRun_dirty (sets : List (String × ModuleSet)) (skip : Bool)
    (tidy : TidyStep) (st : GitState) (hdirty : st.worktree ≠ st.committed) :
    syncRun sets skip tidy st = (st, some .cleanTreeError) := by
  have hwc : workingTreeClean st = false := by
    show decide _ = false
    rw [decide_eq_false_iff_not]
    exact hdirty
  simp [syncRun, hwc]

theorem syncRunLoop_synced (skip : Bool) (tidy : TidyStep)
    (sets : List (String × ModuleSet)) (st : GitState)
    (hclean : st.worktree = st.committed)
    (hsync : ∀ e ∈ sets,
      updateGoModFiles e.2.Modules e.2.Version st.worktree = st.worktree) :
    syncRunLoop skip tidy st sets = st := by
  induction sets with
  | nil => rfl
  | cons e rest ih =>
    have hupdate : updateGoModFiles e.2.Modules e.2.Version st.worktree =
        st.worktree := hsync e (List.mem_cons_self _ _)
    have hcheck : checkModuleSetUpToDate
        { st with worktree :=
          updateGoModFiles e.2.Modules e.2.Version st.worktree } = true := by
      show decide _ = true
      rw [decide_eq_true_eq]
      show updateGoModFiles e.2.Modules e.2.Version st.worktree = st.committed
      rw [hupdate, hclean]
    have hone : syncOneSet e.1 e.2 skip tidy st = st := by
      simp only [syncOneSet, hcheck, if_true]
      rw [hupdate]
    show syncRunLoop skip tidy (syncOneSet e.1 e.2 skip tidy st) rest = st
    rw [hone]
    exact ih (fun x hx => hsync x (List.mem_cons_of_mem _ hx))

theorem syncOneSet_skipTidy_synced (setName : String) (s : ModuleSet)
    (tidy : TidyStep) (st : GitState) :
    (syncOneSet setName s true tidy st).worktree =
      updateGoModFiles s.Modules s.Version st.worktree ∧
    (syncOneSet setName s true tidy st).committed =
      updateGoModFiles s.Modules s.Version st.worktree := by
  by_cases h : updateGoModFiles s.Modules s.Version st.worktree = st.committed
  · constructor <;> simp [syncOneSet, checkModuleSetUpToDate, h]
  · constructor <;>
      simp [syncOneSet, checkModuleSetUpToDate, h, commitChangesToNewBranch]

/-- C6: after the rewrite the working tree is inspected and an unchanged
tree skips the set — no tidy step, no new branch, no commit (the result
does not involve the tidy step at all); consequently a second sync of an
already-synced tree is a no-op, and with the tidy step skipped a second
run of the sync command reproduces the first run's state exactly. -/
theorem c6_sync_idempotent (setName : String) (s : ModuleSet) (skip : Bool)
    (tidy : TidyStep) (sets : List (String × ModuleSet)) (st : GitState) :
    (updateGoModFiles s.Modules s.Version st.worktree = st.committed →
      syncOneSet setName s skip tidy st =
        { st with worktree := updateGoModFiles s.Modules s.Version st.worktree }) ∧
    (st.worktree = st.committed →
      (∀ e ∈ sets,
        updateGoModFiles e.2.Modules e.2.Version st.worktree = st.worktree) →
      syncRun sets skip tidy st = (st, none)) ∧
    (∀ st₁, syncRun [(setName, s)] true tidy st = (st₁, none) →
      syncRun [(setName, s)] true tidy st₁ = (st₁, none)) := by
  refine ⟨?_, ?_, ?_⟩
  · intro hsame
    simp [syncOneSet, checkModuleSetUpToDate, hsame]
  · intro hclean hsync
    rw [syncRun_clean sets skip tidy st hclean,
      syncRunLoop_synced skip tidy sets st hclean hsync]
  · intro st₁ hrun
    by_cases hclean : st.worktree = st.committed
    · rw [syncRun_clean _ _ _ _ hclean] at hrun
      have hst₁' : st₁ = syncOneSet setName s true tidy st :=
        (Prod.ext_iff.mp hrun).1.symm
      obtain ⟨hw, hc⟩ := syncOneSet_skipTidy_synced setName s tidy st
      have hclean₁ : st₁.worktree = st₁.committed := by
        rw [hst₁', hw, hc]
      have hsync₁ : updateGoModFiles s.Modules s.Version st₁.worktree =
          st₁.worktree := by
        rw [hst₁', hw]
        exact updateGoModFiles_idem s.Modules s.Version st.worktree
      rw [syncRun_clean _ _ _ _ hclean₁,
        syncRunLoop_synced true tidy [(setName, s)] st₁ hclean₁
          (by intro e he; rcases List.mem_singleton.mp he with rfl; exact hsync₁)]
    · rw [syncRun_dirty _ _ _ _ hclean] at hrun
      cases (Prod.ext_iff.mp hrun).2

/-- Witness for C6 on a concrete one-module tree that is already synced. -/
theorem c6_sync_idempotent_witness :
    (updateGoModFiles ["dep"] "v2.0.0"
        (GitState.mk [("m", [("dep", "v2.0.0")])] [("m", [("dep", "v2.0.0")])]
          [] []).worktree =
      (GitState.mk [("m", [("dep", "v2.0.0")])] [("m", [("dep", "v2.0.0")])]
        [] []).committed) ∧
    (syncOneSet "set" ⟨"v2.0.0", ["dep"]⟩ false (fun t => (t, true))
        (GitState.mk [("m", [("dep", "v2.0.0")])] [("m", [("dep", "v2.0.0")])]
          [] []) =
      { GitState.mk [("m", [("dep", "v2.0.0")])] [("m", [("dep", "v2.0.0")])]
          [] [] with
        worktree := updateGoModFiles ["dep"] "v2.0.0"
          (GitState.mk [("m", [("dep", "v2.0.0")])] [("m", [("dep", "v2.0.0")])]
            [] []).worktree }) :=
  ⟨by decide,
    (c6_sync_idempotent "set" ⟨"v2.0.0", ["dep"]⟩ false (fun t => (t, true)) []
      (GitState.mk [("m", [("dep", "v2.0.0")])] [("m", [("dep", "v2.0.0")])]
        [] [])).1 (by decide)⟩

/-- C7: a dirty working tree aborts the whole sync run with a
`CleanTreeError` before any rewrite, branch, or commit. -/
theorem c7_clean_tree_precondition (sets : List (String × ModuleSet))
    (skip : Bool) (tidy : TidyStep) (st : GitState)
    (hdirty : st.worktree ≠ st.committed) :
    syncRun sets skip tidy st = (st, some .cleanTreeError) :=
  syncRun_dirty sets skip tidy st hdirty

/-- Witness for C7: a pre-existing modification aborts the run unchanged. -/
theorem c7_clean_tree_precondition_witness :
    ((GitState.mk [("m", [("dep", "v1.0.0")])] [("m", [("dep", "v0.9.0")])]
        [] []).worktree ≠
      (GitState.mk [("m", [("dep", "v1.0.0")])] [("m", [("dep", "v0.9.0")])]
        [] []).committed) ∧
    (syncRun [("set", ⟨"v2.0.0", ["dep"]⟩)] false (fun t => (t, true))
        (GitState.mk [("m", [("dep", "v1.0.0")])] [("m", [("dep", "v0.9.0")])]
          [] []) =
      (GitState.mk [("m", [("dep", "v1.0.0")])] [("m", [("dep", "v0.9.0")])]
        [] [], some .cleanTreeError)) :=
  ⟨by decide,
    c7_clean_tree_precondition [("set", ⟨"v2.0.0", ["dep"]⟩)] false
      (fun t => (t, true))
      (GitState.mk [("m", [("dep", "v1.0.0")])] [("m", [("dep", "v0.9.0")])]
        [] []) (by decide)⟩

/-- C8: the branch created when a module set's changes are committed is
named exactly `sync_<setName>_<version>` and the commit message names the
set and version. -/
theorem c8_sync_branch_name (setName : String) (s : ModuleSet) (skip : Bool)
    (tidy : TidyStep) (st : GitState)
    (hchanged : updateGoModFiles s.Modules s.Version st.worktree ≠ st.committed) :
    syncBranchName setName s.Version =
      "sync_" ++ setName ++ "_" ++ s.Version ∧
    (syncOneSet setName s skip tidy st).branches =
      ("sync_" ++ setName ++ "_" ++ s.Version) :: st.branches ∧
    (syncOneSet setName s skip tidy st).commitMessages =
      ("Sync repo to use " ++ setName ++ " with version " ++ s.Version) ::
        st.commitMessages := by
  have hname : syncBranchName setName s.Version =
      "sync_" ++ setName ++ "_" ++ s.Version := by
    show (("sync" ++ "_") ++ setName ++ "_") ++ s.Version =
      "sync_" ++ setName ++ "_" ++ s.Version
    rfl
  refine ⟨hname, ?_, ?_⟩ <;>
    cases skip <;>
      simp [syncOneSet, checkModuleSetUpToDate, hchanged,
        commitChangesToNewBranch, hname, syncCommitMessage]

/-- Witness for C8 on a concrete out-of-date tree. -/
theorem c8_sync_branch_name_witness :
    (updateGoModFiles ["dep"] "v2.0.0"
        (GitState.mk [("m", [("dep", "v1.0.0")])] [("m", [("dep", "v1.0.0")])]
          [] []).worktree ≠
      (GitState.mk [("m", [("dep", "v1.0.0")])] [("m", [("dep", "v1.0.0")])]
        [] []).committed) ∧
    (syncBranchName "set" "v2.0.0" = "sync_" ++ "set" ++ "_" ++ "v2.0.0" ∧
      (syncOneSet "set" ⟨"v2.0.0", ["dep"]⟩ false (fun t => (t, true))
          (GitState.mk [("m", [("dep", "v1.0.0")])]
            [("m", [("dep", "v1.0.0")])] [] [])).branches =
        ("sync_" ++ "set" ++ "_" ++ "v2.0.0") :: [] ∧
      (syncOneSet "set" ⟨"v2.0.0", ["dep"]⟩ false (fun t => (t, true))
          (GitState.mk [("m", [("dep", "v1.0.0")])]
            [("m", [("dep", "v1.0.0")])] [] [])).commitMessages =
        ("Sync repo to use " ++ "set" ++ " with version " ++ "v2.0.0") :: []) :=
  ⟨by decide,
    c8_sync_branch_name "set" ⟨"v2.0.0", ["dep"]⟩ false (fun t => (t, true))
      (GitState.mk [("m", [("dep", "v1.0.0")])] [("m", [("dep", "v1.0.0")])]
        [] []) (by decide)⟩

/-- C10: a failing `go mod tidy` never aborts the run — the set's changes
are still committed to the new branch, with the tidy-produced tree. -/
theorem c10_tidy_failure_not_fatal (setName : String) (s : ModuleSet)
    (tidy : TidyStep) (st : GitState)
    (hchanged : updateGoModFiles s.Modules s.Version st.worktree ≠ st.committed)
    (hfail : (tidy (updateGoModFiles s.Modules s.Version st.worktree)).2 = false) :
    (syncOneSet setName s false tidy st).branches =
      syncBranchName setName s.Version :: st.branches ∧
    (syncOneSet setName s false tidy st).commitMessages =
      syncCommitMessage setName s.Version :: st.commitMessages ∧
    (syncOneSet setName s false tidy st).committed =
      (tidy (updateGoModFiles s.Modules s.Version st.worktree)).1 := by
  refine ⟨?_, ?_, ?_⟩ <;>
    simp [syncOneSet, checkModuleSetUpToDate, hchanged,
      commitChangesToNewBranch]

/-- Witness for C10: tidy reports failure, the commit still happens. -/
theorem c10_tidy_failure_not_fatal_witness :
    (updateGoModFiles ["dep"] "v2.0.0"
        (GitState.mk [("m", [("dep", "v1.0.0")])] [("m", [("dep", "v1.0.0")])]
          [] []).worktree ≠
      (GitState.mk [("m", [("dep", "v1.0.0")])] [("m", [("dep", "v1.0.0")])]
        [] []).committed) ∧
    ((fun t => (t, false) : TidyStep)
        (updateGoModFiles ["dep"] "v2.0.0"
          (GitState.mk [("m", [("dep", "v1.0.0")])] [("m", [("dep", "v1.0.0")])]
            [] []).worktree)).2 = false ∧
    ((syncOneSet "set" ⟨"v2.0.0", ["dep"]⟩ false (fun t => (t, false))
        (GitState.mk [("m", [("dep", "v1.0.0")])] [("m", [("dep", "v1.0.0")])]
          [] [])).branches = syncBranchName "set" "v2.0.0" :: [] ∧
      (syncOneSet "set" ⟨"v2.0.0", ["dep"]⟩ false (fun t => (t, false))
          (GitState.mk [("m", [("dep", "v1.0.0")])] [("m", [("dep", "v1.0.0")])]
            [] [])).commitMessages = syncCommitMessage "set" "v2.0.0" :: [] ∧
      (syncOneSet "set" ⟨"v2.0.0", ["dep"]⟩ false (fun t => (t, false))
          (GitState.mk [("m", [("dep", "v1.0.0")])] [("m", [("dep", "v1.0.0")])]
            [] [])).committed =
        ((fun t => (t, false) : TidyStep)
          (updateGoModFiles ["dep"] "v2.0.0"
            (GitState.mk [("m", [("dep", "v1.0.0")])]
              [("m", [("dep", "v1.0.0")])] [] []).worktree)).1) :=
  ⟨by decide, by decide,
    c10_tidy_failure_not_fatal "set" ⟨"v2.0.0", ["dep"]⟩ (fun t => (t, false))
      (GitState.mk [("m", [("dep", "v1.0.0")])] [("m", [("dep", "v1.0.0")])]
        [] []) (by decide) (by decide)⟩

end BuildTools
